import Mathlib

/-!
Verification development for `vitis_quantize_ops.py` (Vitis-AI TF2 quantizer,
`tensorflow_model_optimization/.../vitis/common/vitis_quantize_ops.py`).

Modelling conventions:
* Float tensor values are modelled exactly as rationals (`ℚ`); 1-D tensors as
  `List ℚ`.  TF broadcasting between a scalar (singleton) tensor and a vector
  is implemented by `bmap₂` / `bmap₃`.
* Quantize positions are floor/argmin outputs, hence integer-valued; they are
  modelled as `ℤ` (the code stores them in float variables).
* Log thresholds are genuine base-2 logarithms, hence irrational in general;
  they are modelled as `ℝ` (only their integer ceiling feeds back into the
  quantization arithmetic, which stays in `ℚ`).
* `logger.error` raises, so fallible functions return `Except Unit α`.
* Stateful ops (`tf_compat.assign`, `assign_moving_average`) are modelled by
  explicit state passing: each op takes the persistent variables as a state
  record and returns the output tensor together with the new state.
-/

set_option maxRecDepth 4000
set_option linter.unusedVariables false

/-- Module-level flag in the source: `narrow_range = False`. -/
def narrow_range : Bool := false

/-- tf.math.round: rounds half to even (banker's rounding). -/
def tf_round (x : ℚ) : ℚ :=
  let f : ℤ := ⌊x⌋
  let r := x - f
  if r < 1/2 then f
  else if 1/2 < r then f + 1
  else if f % 2 = 0 then f else f + 1

/-- `std_round`: ROUND_HALF_AWAY_FROM_ZERO.  Mirrors the tf.where cascade of
the source: at ties the positive inputs take `ceil` and the rest take
`floor`; all other inputs take `tf.math.round`. -/
def std_round (x : ℚ) : ℚ :=
  let floored : ℚ := ⌊x⌋
  let ceiled : ℚ := ⌈x⌉
  let rounded := tf_round x
  let rounded_half := if 0 < x then ceiled else floored
  if x - floored = 1/2 then rounded_half else rounded

/-- `py3_round`: ROUND_HALF_TO_EVEN, i.e. `tf.math.round`. -/
def py3_round (x : ℚ) : ℚ := tf_round x

/-- `dpu_round`: ROUND_HALF_UP, `floor(x + 0.5)`. -/
def dpu_round (x : ℚ) : ℚ := ⌊x + 1/2⌋

/-- tf.clip_by_value on scalars. -/
def clip_by_value (x lo hi : ℚ) : ℚ := min (max x lo) hi

/-- Scalar core of `py3_sym_quantize`: `clip(round(x * scale))`. -/
def py3_sym_quantize_s (x scale q_min q_max : ℚ) : ℚ :=
  clip_by_value (py3_round (x * scale)) q_min q_max

/-- Scalar core of `dpu_sym_quantize`. -/
def dpu_sym_quantize_s (x scale q_min q_max : ℚ) : ℚ :=
  clip_by_value (dpu_round (x * scale)) q_min q_max

/-- Scalar core of `py3_asym_quantize`: `clip(q_min + round((x - shift) * scale))`. -/
def py3_asym_quantize_s (x scale shift q_min q_max : ℚ) : ℚ :=
  clip_by_value (q_min + py3_round ((x - shift) * scale)) q_min q_max

/-- Scalar core of `dpu_asym_quantize`. -/
def dpu_asym_quantize_s (x scale shift q_min q_max : ℚ) : ℚ :=
  clip_by_value (q_min + dpu_round ((x - shift) * scale)) q_min q_max

/-- Scalar core of `sym_dequantize`: `x / scale`. -/
def sym_dequantize_s (x scale : ℚ) : ℚ := x / scale

/-- Scalar core of `asym_dequantize`: `(x - q_min) / scale + shift`. -/
def asym_dequantize_s (x scale shift q_min : ℚ) : ℚ := (x - q_min) / scale + shift

/-- Elementwise binary op with TF broadcasting between a singleton (scalar)
tensor and a vector. -/
def bmap₂ (f : ℚ → ℚ → ℚ) (xs ys : List ℚ) : List ℚ :=
  match xs, ys with
  | [x], ys => ys.map (fun y => f x y)
  | xs, [y] => xs.map (fun x => f x y)
  | xs, ys => List.zipWith f xs ys

/-- Elementwise ternary op: `ys` and `zs` always have equal shape and
broadcast jointly against `xs`. -/
def bmap₃ (f : ℚ → ℚ → ℚ → ℚ) (xs ys zs : List ℚ) : List ℚ :=
  match xs, ys, zs with
  | xs, [y], [z] => xs.map (fun x => f x y z)
  | [x], ys, zs => List.zipWith (fun y z => f x y z) ys zs
  | xs, ys, zs => List.zipWith3 f xs ys zs

/-- `py3_sym_quantize` on tensors (scale broadcasts). -/
def py3_sym_quantize (inputs scale : List ℚ) (q_min q_max : ℚ) : List ℚ :=
  bmap₂ (fun x s => py3_sym_quantize_s x s q_min q_max) inputs scale

/-- `dpu_sym_quantize` on tensors. -/
def dpu_sym_quantize (inputs scale : List ℚ) (q_min q_max : ℚ) : List ℚ :=
  bmap₂ (fun x s => dpu_sym_quantize_s x s q_min q_max) inputs scale

/-- `sym_dequantize` on tensors (the source also receives the unused
`q_min`/`q_max` arguments). -/
def sym_dequantize (inputs scale : List ℚ) (q_min q_max : ℚ) : List ℚ :=
  bmap₂ (fun x s => sym_dequantize_s x s) inputs scale

/-- `py3_asym_quantize` on tensors. -/
def py3_asym_quantize (inputs scale shift : List ℚ) (q_min q_max : ℚ) : List ℚ :=
  bmap₃ (fun x s sh => py3_asym_quantize_s x s sh q_min q_max) inputs scale shift

/-- `dpu_asym_quantize` on tensors. -/
def dpu_asym_quantize (inputs scale shift : List ℚ) (q_min q_max : ℚ) : List ℚ :=
  bmap₃ (fun x s sh => dpu_asym_quantize_s x s sh q_min q_max) inputs scale shift

/-- `asym_dequantize` on tensors. -/
def asym_dequantize (inputs scale shift : List ℚ) (q_min q_max : ℚ) : List ℚ :=
  bmap₃ (fun x s sh => asym_dequantize_s x s sh q_min) inputs scale shift

/-- `quantize_zero_point`: returns `(q_zero_point, new_f_min, new_f_max)`.
The two `tf.where` clamps are applied sequentially, exactly as in the
source (`f_max` is received but unused there as well). -/
def quantize_zero_point (scale f_min f_max q_min q_max : ℚ) : ℚ × ℚ × ℚ :=
  let f_zero_point := q_min - f_min * scale
  let below_min := f_zero_point < q_min
  let above_max := q_max < f_zero_point
  let q0 := std_round f_zero_point
  let q1 := if below_min then q_min else q0
  let q_zero_point := if above_max then q_max else q1
  let new_f_min := (q_min - q_zero_point) / scale
  let new_f_max := (q_max - q_zero_point) / scale
  (q_zero_point, new_f_min, new_f_max)

/-- `get_scale`: `(q_max - q_min) / (f_max - f_min)`. -/
def get_scale (f_min f_max q_min q_max : ℚ) : ℚ := (q_max - q_min) / (f_max - f_min)

/-- tf.math.reduce_min over the whole 1-D tensor. -/
def reduce_min : List ℚ → ℚ
  | [] => 0
  | x :: xs => xs.foldl min x

/-- tf.math.reduce_max over the whole 1-D tensor. -/
def reduce_max : List ℚ → ℚ
  | [] => 0
  | x :: xs => xs.foldl max x

/-- `get_min_max`: the batch range.  With `per_channel` a 1-D input keeps one
statistic per element (the `input_dim < 2` branch of the source); without it
the whole tensor reduces to a singleton statistic.  Symmetric ranges use the
full-range ratio (since `narrow_range` is false), asymmetric ranges clamp to
contain zero. -/
def get_min_max (inputs : List ℚ) (bit_width : ℕ) (symmetry per_channel : Bool) :
    List ℚ × List ℚ :=
  let batch_min := if per_channel then inputs else [reduce_min inputs]
  let batch_max := if per_channel then inputs else [reduce_max inputs]
  if symmetry then
    if narrow_range then
      (bmap₂ min batch_min (batch_max.map (fun v => -v)),
       bmap₂ max batch_max (batch_min.map (fun v => -v)))
    else
      let min_max_ratio : ℚ := -(2 ^ bit_width - 2) / 2 ^ bit_width
      (bmap₂ min batch_min (batch_max.map (fun v => v / min_max_ratio)),
       bmap₂ max batch_max (batch_min.map (fun v => v * min_max_ratio)))
  else
    (batch_min.map (fun v => min v 0), batch_max.map (fun v => max v 0))

/-- Machine epsilon `sys.float_info.epsilon` of a 64-bit float. -/
def float_epsilon : ℚ := 1 / 2 ^ 52

/-- Exact value of `floor(-log2 s)` for a positive rational `s`.  The source
computes `floor(-log(s)/log(2))` in floating point; we characterise the same
integer exactly through `Int.log`. -/
def floor_neg_log2 (s : ℚ) : ℤ :=
  if (2 : ℚ) ^ Int.log 2 s = s then -Int.log 2 s else -Int.log 2 s - 1

/-- Scalar core of `get_quantize_pos_non_overflow_sym`:
`floor(-log2(max(f_min/q_min, f_max/q_max, epsilon)))`. -/
def non_overflow_pos_s (f_min f_max q_min q_max : ℚ) : ℤ :=
  floor_neg_log2 (max (max (f_min / q_min) (f_max / q_max)) float_epsilon)

/-- Scalar core of `get_quantize_pos_non_overflow_asym`:
`floor(-log2(max((f_max - f_min)/(q_max - q_min), epsilon)))`. -/
def non_overflow_pos_asym_s (f_min f_max q_min q_max : ℚ) : ℤ :=
  floor_neg_log2 (max ((f_max - f_min) / (q_max - q_min)) float_epsilon)

/-- `get_quantize_pos_non_overflow_sym` (per-statistic; `inputs` and
`per_channel` are received but unused, as in the source). -/
def get_quantize_pos_non_overflow_sym (inputs f_min f_max : List ℚ)
    (q_min q_max : ℚ) (per_channel : Bool) : List ℤ :=
  List.zipWith (fun mn mx => non_overflow_pos_s mn mx q_min q_max) f_min f_max

/-- `get_quantize_pos_non_overflow_asym`. -/
def get_quantize_pos_non_overflow_asym (inputs f_min f_max : List ℚ)
    (q_min q_max : ℚ) (per_channel : Bool) : List ℤ :=
  List.zipWith (fun mn mx => non_overflow_pos_asym_s mn mx q_min q_max) f_min f_max

/-- tf.argmin over a 1-D tensor: index of the minimum, first occurrence wins.
The accumulator keeps the current best index and value; a later candidate
replaces it only when strictly smaller. -/
def argmin_go : List ℚ → ℕ → ℕ → ℚ → ℕ
  | [], _, best, _ => best
  | v :: rest, i, best, bestV =>
    if v < bestV then argmin_go rest (i + 1) i v else argmin_go rest (i + 1) best bestV

/-- tf.argmin entry point (0 on an empty tensor, which TF rejects anyway). -/
def tf_argmin : List ℚ → ℕ
  | [] => 0
  | v :: rest => argmin_go rest 1 0 v

/-- Sum of squared differences `reduce_sum((inputs - dequantized)^2)` of the
round trip at candidate position `non_overflow_pos + i`, with the py3 kernel. -/
def min_diffs_diff_py3 (inputs : List ℚ) (non_overflow_pos : List ℤ)
    (q_min q_max : ℚ) (i : ℕ) : ℚ :=
  let scale := non_overflow_pos.map (fun p => (2 : ℚ) ^ (p + (i : ℤ)))
  let quantized := py3_sym_quantize inputs scale q_min q_max
  let dequantized := sym_dequantize quantized scale q_min q_max
  ((bmap₂ (fun a b => a - b) inputs dequantized).map (fun d => d ^ 2)).sum

/-- Same with the dpu kernel. -/
def min_diffs_diff_dpu (inputs : List ℚ) (non_overflow_pos : List ℤ)
    (q_min q_max : ℚ) (i : ℕ) : ℚ :=
  let scale := non_overflow_pos.map (fun p => (2 : ℚ) ^ (p + (i : ℤ)))
  let quantized := dpu_sym_quantize inputs scale q_min q_max
  let dequantized := sym_dequantize quantized scale q_min q_max
  ((bmap₂ (fun a b => a - b) inputs dequantized).map (fun d => d ^ 2)).sum

/-- `get_quantize_pos_min_diffs_py3_sym`: evaluate the five candidate
positions `non_overflow_pos + i`, `i = 0..4`, and keep the argmin of the
reconstruction errors. -/
def get_quantize_pos_min_diffs_py3_sym (inputs f_min f_max : List ℚ)
    (q_min q_max : ℚ) (bit_width : ℕ) (per_channel : Bool) : List ℤ :=
  let non_overflow_pos :=
    get_quantize_pos_non_overflow_sym inputs f_min f_max q_min q_max per_channel
  let diffs := (List.range 5).map (min_diffs_diff_py3 inputs non_overflow_pos q_min q_max)
  let pos_offset := tf_argmin diffs
  non_overflow_pos.map (fun p => p + (pos_offset : ℤ))

/-- `get_quantize_pos_min_diffs_dpu_sym`. -/
def get_quantize_pos_min_diffs_dpu_sym (inputs f_min f_max : List ℚ)
    (q_min q_max : ℚ) (bit_width : ℕ) (per_channel : Bool) : List ℤ :=
  let non_overflow_pos :=
    get_quantize_pos_non_overflow_sym inputs f_min f_max q_min q_max per_channel
  let diffs := (List.range 5).map (min_diffs_diff_dpu inputs non_overflow_pos q_min q_max)
  let pos_offset := tf_argmin diffs
  non_overflow_pos.map (fun p => p + (pos_offset : ℤ))

/-- Integer quantization bounds from the bit width: `q_min = -2^(b-1)`
(plus 1 under `narrow_range`), `q_max = 2^(b-1) - 1`. -/
def q_min_of (bit_width : ℕ) : ℚ :=
  let bound : ℚ := 2 ^ (bit_width - 1)
  if narrow_range then -bound + 1 else -bound

def q_max_of (bit_width : ℕ) : ℚ :=
  let bound : ℚ := 2 ^ (bit_width - 1)
  bound - 1

/-- `get_quantize_pos`: dispatch on symmetry, method and round mode.  An
asymmetric call always takes the non-overflow method; unsupported symmetric
combinations hit `logger.error` (modelled as `Except.error`). -/
def get_quantize_pos (inputs f_min f_max : List ℚ) (bit_width method round_mode : ℕ)
    (per_channel symmetry : Bool) : Except Unit (List ℤ) :=
  let q_min := q_min_of bit_width
  let q_max := q_max_of bit_width
  if ¬ symmetry then
    .ok (get_quantize_pos_non_overflow_asym inputs f_min f_max q_min q_max per_channel)
  else if method = 0 then
    .ok (get_quantize_pos_non_overflow_sym inputs f_min f_max q_min q_max per_channel)
  else if method = 1 ∧ round_mode = 0 then
    .ok (get_quantize_pos_min_diffs_py3_sym inputs f_min f_max q_min q_max bit_width per_channel)
  else if method = 1 ∧ round_mode = 1 then
    .ok (get_quantize_pos_min_diffs_dpu_sym inputs f_min f_max q_min q_max bit_width per_channel)
  else
    .error ()

/-- Keys of `_QUANTIZE_KERNEL_MAP`. -/
def quantize_kernel_map_keys : List String :=
  ["MIN_MAX_PY3_SYM", "MIN_MAX_PY3_SYM_PERC", "MIN_MAX_PY3_ASYM", "MIN_MAX_PY3_ASYM_PERC",
   "QUANTIZE_POS_PY3_SYM", "QUANTIZE_POS_PY3_ASYM", "QUANTIZE_POS_PY3_SYM_PERC",
   "QUANTIZE_POS_PY3_ASYM_PERC", "QUANTIZE_POS_DPU_SYM", "QUANTIZE_POS_DPU_ASYM",
   "LOG_TH_PY3_SYM", "LOG_TH_DPU_SYM"]

/-- `get_quantize_kernel`: build the kernel key from the configuration and
fail (`logger.error`) on an invalid round mode or on a key that is not in
the kernel map. -/
def get_quantize_kernel_key (kernel_type : String) (round_mode : ℕ)
    (symmetry per_channel : Bool) : Except Unit String :=
  let rm_tag := if round_mode = 0 then some "_PY3"
    else if round_mode = 1 then some "_DPU"
    else if round_mode = 2 then some "_STD"
    else none
  match rm_tag with
  | none => .error ()
  | some tag =>
    let key := kernel_type ++ tag ++ (if symmetry then "_SYM" else "_ASYM")
      ++ (if per_channel then "_PERC" else "")
    if key ∈ quantize_kernel_map_keys then .ok key else .error ()

/-- `fake_quantize_with_min_max_py3_sym`, forward pass (the per-channel
variant has the same forward pass; statistics broadcast). -/
def fake_quantize_with_min_max_py3_sym (inputs f_min f_max : List ℚ)
    (bit_width : ℕ) : List ℚ :=
  let q_min := q_min_of bit_width
  let q_max := q_max_of bit_width
  let scale := List.zipWith (fun mn mx => get_scale mn mx q_min q_max) f_min f_max
  sym_dequantize (py3_sym_quantize inputs scale q_min q_max) scale q_min q_max

/-- Gradient closure of `fake_quantize_with_min_max_py3_sym`: `dy` passes
where `f_min <= x <= f_max`, is blocked elsewhere; the range gradients
collect the blocked mass below and above. -/
def fake_quantize_with_min_max_py3_sym_grad (inputs f_min f_max : List ℚ)
    (dy : List ℚ) : List ℚ × ℚ × ℚ :=
  let ge_min := bmap₂ (fun x mn => if mn ≤ x then (1 : ℚ) else 0) inputs f_min
  let le_max := bmap₂ (fun x mx => if x ≤ mx then (1 : ℚ) else 0) inputs f_max
  let between := List.zipWith (fun a b => a * b) ge_min le_max
  let below := bmap₂ (fun x mn => if x < mn then (1 : ℚ) else 0) inputs f_min
  let above := bmap₂ (fun x mx => if mx < x then (1 : ℚ) else 0) inputs f_max
  (List.zipWith (fun d m => d * m) dy between,
   (List.zipWith (fun d m => d * m) dy below).sum,
   (List.zipWith (fun d m => d * m) dy above).sum)

/-- `fake_quantize_with_min_max_py3_asym`, forward pass. -/
def fake_quantize_with_min_max_py3_asym (inputs f_min f_max : List ℚ)
    (bit_width : ℕ) : List ℚ :=
  let q_min := q_min_of bit_width
  let q_max := q_max_of bit_width
  let scale := List.zipWith (fun mn mx => get_scale mn mx q_min q_max) f_min f_max
  let zps := List.zipWith3 (fun s mn mx => quantize_zero_point s mn mx q_min q_max)
    scale f_min f_max
  let shift := zps.map (fun t => t.2.1)
  asym_dequantize (py3_asym_quantize inputs scale shift q_min q_max) scale shift q_min q_max

/-- `fake_quantize_with_quantize_pos_py3_sym`, forward pass. -/
def fake_quantize_with_quantize_pos_py3_sym (inputs : List ℚ) (quantize_pos : List ℤ)
    (bit_width : ℕ) : List ℚ :=
  let q_min := q_min_of bit_width
  let q_max := q_max_of bit_width
  let scale := quantize_pos.map (fun p => (2 : ℚ) ^ p)
  sym_dequantize (py3_sym_quantize inputs scale q_min q_max) scale q_min q_max

/-- `fake_quantize_with_quantize_pos_dpu_sym`, forward pass. -/
def fake_quantize_with_quantize_pos_dpu_sym (inputs : List ℚ) (quantize_pos : List ℤ)
    (bit_width : ℕ) : List ℚ :=
  let q_min := q_min_of bit_width
  let q_max := q_max_of bit_width
  let scale := quantize_pos.map (fun p => (2 : ℚ) ^ p)
  sym_dequantize (dpu_sym_quantize inputs scale q_min q_max) scale q_min q_max

/-- `fake_quantize_with_quantize_pos_py3_asym`, forward pass. -/
def fake_quantize_with_quantize_pos_py3_asym (inputs : List ℚ) (quantize_pos : List ℤ)
    (f_min f_max : List ℚ) (bit_width : ℕ) : List ℚ :=
  let q_min := q_min_of bit_width
  let q_max := q_max_of bit_width
  let scale := quantize_pos.map (fun p => (2 : ℚ) ^ p)
  let zps := List.zipWith3 (fun s mn mx => quantize_zero_point s mn mx q_min q_max)
    scale f_min f_max
  let shift := zps.map (fun t => t.2.1)
  asym_dequantize (py3_asym_quantize inputs scale shift q_min q_max) scale shift q_min q_max

/-- `fake_quantize_with_quantize_pos_dpu_asym`, forward pass. -/
def fake_quantize_with_quantize_pos_dpu_asym (inputs : List ℚ) (quantize_pos : List ℤ)
    (f_min f_max : List ℚ) (bit_width : ℕ) : List ℚ :=
  let q_min := q_min_of bit_width
  let q_max := q_max_of bit_width
  let scale := quantize_pos.map (fun p => (2 : ℚ) ^ p)
  let zps := List.zipWith3 (fun s mn mx => quantize_zero_point s mn mx q_min q_max)
    scale f_min f_max
  let shift := zps.map (fun t => t.2.1)
  asym_dequantize (dpu_asym_quantize inputs scale shift q_min q_max) scale shift q_min q_max

/-- `get_log_th_non_overflow`: `log2(max(|f_min|, f_max * (-q_min/q_max), 1e-9))`.
The result is a genuine base-2 logarithm, modelled in `ℝ` exactly as
`log th / log 2`. -/
noncomputable def get_log_th_non_overflow (f_min f_max q_min q_max : ℚ) : ℝ :=
  let f_min_abs := |f_min|
  let f_max_adj := f_max * (-q_min / q_max)
  let th := max (max f_min_abs f_max_adj) (1 / 10 ^ 9)
  Real.log (th : ℝ) / Real.log 2

/-- `get_log_th`: only method 0 (non-overflow) is implemented; methods 1 and
above hit `logger.error`. -/
noncomputable def get_log_th (inputs : List ℚ) (f_min f_max : ℚ)
    (bit_width method : ℕ) : Except Unit ℝ :=
  let q_min := q_min_of bit_width
  let q_max := q_max_of bit_width
  if method = 0 then .ok (get_log_th_non_overflow f_min f_max q_min q_max)
  else .error ()

/-- `fake_quantize_with_log_th_py3_sym`, forward pass:
`quantize_pos = bit_width - 1 - ceil(log_th)`, `scale = 2^quantize_pos`. -/
noncomputable def fake_quantize_with_log_th_py3_sym (inputs : List ℚ) (log_th : ℝ)
    (bit_width : ℕ) : List ℚ :=
  let q_min := q_min_of bit_width
  let q_max := q_max_of bit_width
  let quantize_pos : ℤ := (bit_width : ℤ) - 1 - ⌈log_th⌉
  let scale : ℚ := 2 ^ quantize_pos
  sym_dequantize (py3_sym_quantize inputs [scale] q_min q_max) [scale] q_min q_max

/-- `fake_quantize_with_log_th_dpu_sym`, forward pass. -/
noncomputable def fake_quantize_with_log_th_dpu_sym (inputs : List ℚ) (log_th : ℝ)
    (bit_width : ℕ) : List ℚ :=
  let q_min := q_min_of bit_width
  let q_max := q_max_of bit_width
  let quantize_pos : ℤ := (bit_width : ℤ) - 1 - ⌈log_th⌉
  let scale : ℚ := 2 ^ quantize_pos
  sym_dequantize (dpu_sym_quantize inputs [scale] q_min q_max) [scale] q_min q_max

/-- Modelled from the spec: TensorFlow's `moving_averages.assign_moving_average`
(external library, not part of this repository).  With `zero_debias = false`
the variable update is `var := var - (var - value) * (1 - decay)`; with
`zero_debias = true` a biased accumulator receives that update instead, a step
counter increments, and the variable receives `biased / (1 - decay^step)`.
Returns `(new_var, new_biased, new_step)`. -/
def assign_moving_average (v biased : ℚ) (step : ℕ) (value decay : ℚ)
    (zero_debias : Bool) : ℚ × ℚ × ℕ :=
  if zero_debias then
    let biased1 := biased - (biased - value) * (1 - decay)
    let step1 := step + 1
    (biased1 / (1 - decay ^ step1), biased1, step1)
  else
    (v - (v - value) * (1 - decay), biased, step)

/-- Elementwise `assign_moving_average` over a statistics tensor (the step
counter is one per variable). -/
def assign_moving_average_l (v biased : List ℚ) (step : ℕ) (value : List ℚ)
    (decay : ℚ) (zero_debias : Bool) : List ℚ × List ℚ × ℕ :=
  let upd := List.zipWith3 (fun vv bb xx => assign_moving_average vv bb step xx decay zero_debias)
    v biased value
  (upd.map (fun t => t.1), upd.map (fun t => t.2.1),
   if zero_debias then step + 1 else step)

/-- Persistent state of the min-max quantize ops. -/
structure MinMaxState where
  min_var : List ℚ
  max_var : List ℚ
deriving DecidableEq

/-- Persistent state of `MovingAvgMinMaxQuantize` (the biased accumulators
and step counters belong to the zero-debiased moving averages). -/
structure MovingAvgState where
  min_var : List ℚ
  max_var : List ℚ
  biased_min : List ℚ
  biased_max : List ℚ
  step_min : ℕ
  step_max : ℕ
deriving DecidableEq

/-- Persistent state of `LastValueQuantPosQuantize`. -/
structure QuantPosState where
  quant_pos_var : List ℤ
  min_var : List ℚ
  max_var : List ℚ
deriving DecidableEq

/-- Persistent state of `LastValueLogThQuantize` (scalar statistics: the op
has no per-channel mode). -/
structure LogThState where
  log_th_var : ℝ
  min_var : ℚ
  max_var : ℚ

/-- State left behind by an op call: on `logger.error` no assignment has
happened, so the original state survives. -/
def result_state {α σ : Type _} (r : Except Unit (α × σ)) (st : σ) : σ :=
  match r with
  | .ok (_, s) => s
  | .error _ => st

/-- `LastValueMinMaxQuantize` with explicit state passing.  ANALYSE stores the
batch range and returns the input unchanged; training / QCB stores the batch
range and quantizes with it; otherwise (evaluation) it quantizes with the
stored range.  Only PY3 kernels exist for MIN_MAX, so after key validation
the kernel is selected by `symmetry` alone. -/
def LastValueMinMaxQuantize (inputs : List ℚ) (st : MinMaxState)
    (bit_width round_mode : ℕ) (mode : String)
    (is_training symmetry per_channel : Bool) :
    Except Unit (List ℚ × MinMaxState) := do
  let _key ← get_quantize_kernel_key "MIN_MAX" round_mode symmetry per_channel
  if mode = "ANALYSE" then
    let (bmin, bmax) := get_min_max inputs bit_width symmetry per_channel
    return (inputs, ⟨bmin, bmax⟩)
  else if is_training = true ∨ mode = "QCB" then
    let (bmin, bmax) := get_min_max inputs bit_width symmetry per_channel
    let out := if symmetry then fake_quantize_with_min_max_py3_sym inputs bmin bmax bit_width
      else fake_quantize_with_min_max_py3_asym inputs bmin bmax bit_width
    return (out, ⟨bmin, bmax⟩)
  else
    let out := if symmetry then
        fake_quantize_with_min_max_py3_sym inputs st.min_var st.max_var bit_width
      else fake_quantize_with_min_max_py3_asym inputs st.min_var st.max_var bit_width
    return (out, st)

/-- `MovingAvgMinMaxQuantize` with explicit state passing.  `symmetry` is
fixed to `false` inside the op; ANALYSE updates the moving averages with
`zero_debias = false` and returns the input unchanged; training / QCB updates
them with `zero_debias = true` and quantizes with the updated values;
evaluation quantizes with the stored values. -/
def MovingAvgMinMaxQuantize (inputs : List ℚ) (st : MovingAvgState)
    (bit_width round_mode : ℕ) (mode : String)
    (is_training per_channel : Bool) (ema_decay : ℚ) :
    Except Unit (List ℚ × MovingAvgState) := do
  let symmetry := false
  let _key ← get_quantize_kernel_key "MIN_MAX" round_mode symmetry per_channel
  if mode = "ANALYSE" then
    let (bmin, bmax) := get_min_max inputs bit_width symmetry per_channel
    let (min1, bias_min1, s1) :=
      assign_moving_average_l st.min_var st.biased_min st.step_min bmin ema_decay false
    let (max1, bias_max1, s2) :=
      assign_moving_average_l st.max_var st.biased_max st.step_max bmax ema_decay false
    return (inputs, ⟨min1, max1, bias_min1, bias_max1, s1, s2⟩)
  else if is_training = true ∨ mode = "QCB" then
    let (bmin, bmax) := get_min_max inputs bit_width symmetry per_channel
    let (min1, bias_min1, s1) :=
      assign_moving_average_l st.min_var st.biased_min st.step_min bmin ema_decay true
    let (max1, bias_max1, s2) :=
      assign_moving_average_l st.max_var st.biased_max st.step_max bmax ema_decay true
    let out := fake_quantize_with_min_max_py3_asym inputs min1 max1 bit_width
    return (out, ⟨min1, max1, bias_min1, bias_max1, s1, s2⟩)
  else
    let out := fake_quantize_with_min_max_py3_asym inputs st.min_var st.max_var bit_width
    return (out, st)

/-- `LastValueQuantPosQuantize` with explicit state passing.  ANALYSE stores
the batch range only; training / QCB stores the batch range, recomputes the
quantize position from it and stores that too, then quantizes with the fresh
position; evaluation quantizes with the stored position (and stored range in
the asymmetric case). -/
def LastValueQuantPosQuantize (inputs : List ℚ) (st : QuantPosState)
    (bit_width method round_mode : ℕ) (mode : String)
    (is_training symmetry per_channel : Bool) :
    Except Unit (List ℚ × QuantPosState) := do
  let _key ← get_quantize_kernel_key "QUANTIZE_POS" round_mode symmetry per_channel
  if mode = "ANALYSE" then
    let (bmin, bmax) := get_min_max inputs bit_width symmetry per_channel
    return (inputs, ⟨st.quant_pos_var, bmin, bmax⟩)
  else if is_training = true ∨ mode = "QCB" then
    let (bmin, bmax) := get_min_max inputs bit_width symmetry per_channel
    let bpos ← get_quantize_pos inputs bmin bmax bit_width method round_mode
      per_channel symmetry
    let out := if symmetry then
        (if round_mode = 0 then fake_quantize_with_quantize_pos_py3_sym inputs bpos bit_width
         else fake_quantize_with_quantize_pos_dpu_sym inputs bpos bit_width)
      else
        (if round_mode = 0 then
          fake_quantize_with_quantize_pos_py3_asym inputs bpos bmin bmax bit_width
         else fake_quantize_with_quantize_pos_dpu_asym inputs bpos bmin bmax bit_width)
    return (out, ⟨bpos, bmin, bmax⟩)
  else
    let out := if symmetry then
        (if round_mode = 0 then
          fake_quantize_with_quantize_pos_py3_sym inputs st.quant_pos_var bit_width
         else fake_quantize_with_quantize_pos_dpu_sym inputs st.quant_pos_var bit_width)
      else
        (if round_mode = 0 then
          fake_quantize_with_quantize_pos_py3_asym inputs st.quant_pos_var st.min_var
            st.max_var bit_width
         else fake_quantize_with_quantize_pos_dpu_asym inputs st.quant_pos_var st.min_var
            st.max_var bit_width)
    return (out, st)

/-- `LastValueLogThQuantize` with explicit state passing.  ANALYSE stores the
batch range only; inside the training / QCB branch the log threshold is
recomputed and stored only when `mode = QCB` — a plain training step reuses
the stored threshold; evaluation also reuses it.  The op always uses
symmetric, non-per-channel statistics (`get_min_max` defaults). -/
noncomputable def LastValueLogThQuantize (inputs : List ℚ) (st : LogThState)
    (bit_width method round_mode : ℕ) (mode : String) (is_training : Bool) :
    Except Unit (List ℚ × LogThState) := do
  let _key ← get_quantize_kernel_key "LOG_TH" round_mode true false
  if mode = "ANALYSE" then
    let (bmin, bmax) := get_min_max inputs bit_width true false
    return (inputs, ⟨st.log_th_var, (bmin.headD 0), (bmax.headD 0)⟩)
  else if is_training = true ∨ mode = "QCB" then
    let (bmin, bmax) := get_min_max inputs bit_width true false
    let bmin := bmin.headD 0
    let bmax := bmax.headD 0
    if mode = "QCB" then
      let blog ← get_log_th inputs bmin bmax bit_width method
      let out := if round_mode = 0 then fake_quantize_with_log_th_py3_sym inputs blog bit_width
        else fake_quantize_with_log_th_dpu_sym inputs blog bit_width
      return (out, ⟨blog, bmin, bmax⟩)
    else
      let out := if round_mode = 0 then
          fake_quantize_with_log_th_py3_sym inputs st.log_th_var bit_width
        else fake_quantize_with_log_th_dpu_sym inputs st.log_th_var bit_width
      return (out, ⟨st.log_th_var, bmin, bmax⟩)
  else
    let out := if round_mode = 0 then
        fake_quantize_with_log_th_py3_sym inputs st.log_th_var bit_width
      else fake_quantize_with_log_th_dpu_sym inputs st.log_th_var bit_width
    return (out, st)

/-- C1: the three rounding functions on `[2.3, 1.5, -1.5, 2.5, -2.5, -2.6]`
return exactly the vectors stated in the spec: half-to-even gives
`[2, 2, -2, 2, -2, -3]`, half-up gives `[2, 2, -1, 3, -2, -3]`, and
half-away-from-zero gives `[2, 2, -2, 3, -3, -3]`. -/
theorem c1_rounding_parity :
    [(23/10 : ℚ), 3/2, -(3/2), 5/2, -(5/2), -(13/5)].map py3_round
        = [2, 2, -2, 2, -2, -3] ∧
    [(23/10 : ℚ), 3/2, -(3/2), 5/2, -(5/2), -(13/5)].map dpu_round
        = [2, 2, -1, 3, -2, -3] ∧
    [(23/10 : ℚ), 3/2, -(3/2), 5/2, -(5/2), -(13/5)].map std_round
        = [2, 2, -2, 3, -3, -3] := by
  have h32 : ⌈(3/2 : ℚ)⌉ = 2 := by rw [Int.ceil_eq_iff]; norm_num
  have h52 : ⌈(5/2 : ℚ)⌉ = 3 := by rw [Int.ceil_eq_iff]; norm_num
  refine ⟨?_, ?_, ?_⟩ <;>
    norm_num [py3_round, dpu_round, std_round, tf_round, h32, h52]

/-! ### Helper lemmas about the rounding kernels -/

lemma tf_round_abs_sub (x : ℚ) : |tf_round x - x| ≤ 1/2 := by
  have hf := Int.floor_le x
  have hf2 := Int.lt_floor_add_one x
  simp only [tf_round]
  split_ifs with h1 h2 h3 <;> rw [abs_le] <;> constructor <;> linarith

lemma dpu_round_abs_sub (x : ℚ) : |dpu_round x - x| ≤ 1/2 := by
  have hf := Int.floor_le (x + 1/2)
  have hf2 := Int.lt_floor_add_one (x + 1/2)
  simp only [dpu_round]
  rw [abs_le]
  constructor <;> linarith

lemma floor_add_one_le {t : ℚ} {z2 : ℤ} (h2 : t ≤ z2) (hr : (1/2 : ℚ) ≤ t - ⌊t⌋) :
    (⌊t⌋ : ℚ) + 1 ≤ z2 := by
  have hlt : ⌊t⌋ < z2 := by
    by_contra hcon
    push_neg at hcon
    have : (z2 : ℚ) ≤ (⌊t⌋ : ℚ) := by exact_mod_cast hcon
    linarith
  have : ⌊t⌋ + 1 ≤ z2 := hlt
  exact_mod_cast this

lemma tf_round_bounds {t : ℚ} {z1 z2 : ℤ} (h1 : (z1:ℚ) ≤ t) (h2 : t ≤ z2) :
    (z1:ℚ) ≤ tf_round t ∧ tf_round t ≤ z2 := by
  have hfl : (z1:ℚ) ≤ (⌊t⌋:ℚ) := by exact_mod_cast Int.le_floor.mpr h1
  have hf := Int.floor_le t
  simp only [tf_round]
  split_ifs with h1' h2' h3' <;> constructor <;>
    first
      | linarith
      | linarith [floor_add_one_le h2 (by linarith : (1/2 : ℚ) ≤ t - ⌊t⌋)]

lemma dpu_round_bounds {t : ℚ} {z1 z2 : ℤ} (h1 : (z1:ℚ) ≤ t) (h2 : t ≤ z2) :
    (z1:ℚ) ≤ dpu_round t ∧ dpu_round t ≤ z2 := by
  simp only [dpu_round]
  constructor
  · have : z1 ≤ ⌊t + 1/2⌋ := Int.le_floor.mpr (by push_cast; linarith)
    exact_mod_cast this
  · have hle : ⌊t + 1/2⌋ ≤ ⌊(z2:ℚ) + 1/2⌋ := Int.floor_le_floor (by linarith)
    have hz : ⌊(z2:ℚ) + 1/2⌋ = z2 := by
      rw [Int.floor_eq_iff]
      push_cast
      constructor <;> linarith
    rw [hz] at hle
    exact_mod_cast hle

lemma std_round_bounds {t : ℚ} {z1 z2 : ℤ} (h1 : (z1:ℚ) ≤ t) (h2 : t ≤ z2) :
    (z1:ℚ) ≤ std_round t ∧ std_round t ≤ z2 := by
  have hfl : (z1:ℚ) ≤ (⌊t⌋:ℚ) := by exact_mod_cast Int.le_floor.mpr h1
  have hcu : (⌈t⌉:ℚ) ≤ z2 := by exact_mod_cast Int.ceil_le.mpr h2
  have hf := Int.floor_le t
  have hc := Int.le_ceil t
  have htf := tf_round_bounds h1 h2
  simp only [std_round]
  split_ifs <;> constructor <;>
    first
      | linarith
      | exact htf.1
      | exact htf.2

lemma tf_round_int (x : ℚ) : ∃ z : ℤ, tf_round x = z := by
  simp only [tf_round]
  split_ifs
  · exact ⟨⌊x⌋, rfl⟩
  · exact ⟨⌊x⌋ + 1, by push_cast; ring⟩
  · exact ⟨⌊x⌋, rfl⟩
  · exact ⟨⌊x⌋ + 1, by push_cast; ring⟩

lemma std_round_int (x : ℚ) : ∃ z : ℤ, std_round x = z := by
  simp only [std_round]
  split_ifs
  · exact ⟨⌈x⌉, rfl⟩
  · exact ⟨⌊x⌋, rfl⟩
  · exact tf_round_int x

lemma dpu_round_int (x : ℚ) : ∃ z : ℤ, dpu_round x = z := ⟨⌊x + 1/2⌋, rfl⟩

/-! ### Helper lemmas about the exact base-2 log floor -/

lemma floor_neg_log2_spec {s : ℚ} (hs : 0 < s) :
    (2:ℚ) ^ floor_neg_log2 s * s ≤ 1 ∧ 1 < (2:ℚ) ^ (floor_neg_log2 s + 1) * s := by
  have h1 : (2:ℚ) ^ Int.log 2 s ≤ s := Int.zpow_log_le_self (by norm_num) hs
  have h2 : s < (2:ℚ) ^ (Int.log 2 s + 1) := Int.lt_zpow_succ_log_self (by norm_num) s
  have hzp : ∀ m : ℤ, (0:ℚ) < 2 ^ m := fun m => zpow_pos (by norm_num) m
  have hmul : ∀ m n : ℤ, (2:ℚ) ^ m * 2 ^ n = 2 ^ (m + n) := fun m n =>
    (zpow_add₀ (by norm_num : (2:ℚ) ≠ 0) m n).symm
  unfold floor_neg_log2
  split_ifs with heq
  · constructor
    · have hone : (2:ℚ) ^ (-Int.log 2 s) * s = 1 := by
        calc (2:ℚ) ^ (-Int.log 2 s) * s = 2 ^ (-Int.log 2 s) * 2 ^ Int.log 2 s := by rw [heq]
          _ = 2 ^ ((-Int.log 2 s) + Int.log 2 s) := hmul _ _
          _ = 1 := by rw [neg_add_cancel, zpow_zero]
      linarith
    · have hlt : (1:ℚ) < 2 ^ (-Int.log 2 s + 1 + Int.log 2 s) := by
        rw [show -Int.log 2 s + 1 + Int.log 2 s = 1 by ring]
        norm_num
      calc (1:ℚ) < 2 ^ (-Int.log 2 s + 1 + Int.log 2 s) := hlt
        _ = 2 ^ (-Int.log 2 s + 1) * 2 ^ Int.log 2 s := (hmul _ _).symm
        _ = 2 ^ (-Int.log 2 s + 1) * s := by rw [heq]
  · have hslt : (2:ℚ) ^ Int.log 2 s < s := lt_of_le_of_ne h1 heq
    constructor
    · have : (2:ℚ) ^ (-Int.log 2 s - 1) * s < 2 ^ (-Int.log 2 s - 1) * 2 ^ (Int.log 2 s + 1) :=
        mul_lt_mul_of_pos_left h2 (hzp _)
      have hone : (2:ℚ) ^ (-Int.log 2 s - 1) * 2 ^ (Int.log 2 s + 1) = 1 := by
        rw [hmul]
        rw [show -Int.log 2 s - 1 + (Int.log 2 s + 1) = 0 by ring, zpow_zero]
      linarith
    · have : (2:ℚ) ^ (-Int.log 2 s) * 2 ^ Int.log 2 s < 2 ^ (-Int.log 2 s) * s :=
        mul_lt_mul_of_pos_left hslt (hzp _)
      have hone : (2:ℚ) ^ (-Int.log 2 s) * 2 ^ Int.log 2 s = 1 := by
        rw [hmul, neg_add_cancel, zpow_zero]
      rw [show -Int.log 2 s - 1 + 1 = -Int.log 2 s by ring]
      linarith

lemma floor_neg_log2_eq {s : ℚ} {p : ℤ} (hs : 0 < s)
    (h1 : (2:ℚ) ^ p * s ≤ 1) (h2 : 1 < (2:ℚ) ^ (p + 1) * s) : floor_neg_log2 s = p := by
  obtain ⟨hq1, hq2⟩ := floor_neg_log2_spec hs
  set q := floor_neg_log2 s with hq
  by_contra hne
  rcases lt_or_gt_of_ne hne with hlt | hgt
  · have hle : q + 1 ≤ p := hlt
    have hz : (2:ℚ) ^ (q+1) ≤ 2 ^ p := zpow_le_zpow_right₀ (by norm_num) hle
    have : (2:ℚ) ^ (q+1) * s ≤ 2 ^ p * s := mul_le_mul_of_nonneg_right hz hs.le
    linarith
  · have hle : p + 1 ≤ q := hgt
    have hz : (2:ℚ) ^ (p+1) ≤ 2 ^ q := zpow_le_zpow_right₀ (by norm_num) hle
    have : (2:ℚ) ^ (p+1) * s ≤ 2 ^ q * s := mul_le_mul_of_nonneg_right hz hs.le
    linarith

/-! ### Helper lemma about tf.argmin on five candidates -/

lemma tf_argmin_five (d0 d1 d2 d3 d4 : ℚ) :
    tf_argmin [d0, d1, d2, d3, d4] < 5 ∧
    (∀ j, j < 5 →
      [d0, d1, d2, d3, d4].getD (tf_argmin [d0, d1, d2, d3, d4]) 0
        ≤ [d0, d1, d2, d3, d4].getD j 0) ∧
    (∀ j, j < tf_argmin [d0, d1, d2, d3, d4] →
      [d0, d1, d2, d3, d4].getD j 0
        > [d0, d1, d2, d3, d4].getD (tf_argmin [d0, d1, d2, d3, d4]) 0) := by
  simp only [tf_argmin, argmin_go]
  split_ifs <;>
    refine ⟨by norm_num, fun j hj => ?_, fun j hj => ?_⟩ <;>
      interval_cases j <;> simp_all [List.getD] <;> linarith

/-! ### C3 -/

/-- C3 counterexample: `get_quantize_pos` with the min-diffs method
(`method = 1`) on an asymmetric configuration (`symmetry = false`) does NOT
fail with a configuration error — it silently returns the asymmetric
non-overflow position (here 7 for the range [0, 1] at bit width 8). -/
theorem c3_counterexample :
    get_quantize_pos [1] [0] [1] 8 1 0 false false = Except.ok [7] := by
  have heps : max ((1:ℚ)/255) float_epsilon = 1/255 := by
    rw [float_epsilon]
    norm_num
  have hval : floor_neg_log2 (1/255) = 7 :=
    floor_neg_log2_eq (by norm_num) (by norm_num) (by norm_num)
  simp only [get_quantize_pos, get_quantize_pos_non_overflow_asym,
    non_overflow_pos_asym_s, q_min_of, q_max_of, narrow_range]
  norm_num [heps, hval]

/-- C3 amended: an asymmetric `get_quantize_pos` call ignores `method` and
`round_mode` entirely and successfully returns the asymmetric non-overflow
position; no configuration error is raised for the min-diffs/asymmetric
combination (the error branch is reachable only with `symmetry = true`). -/
theorem c3_amended (inputs f_min f_max : List ℚ) (bit_width method round_mode : ℕ)
    (per_channel : Bool) :
    get_quantize_pos inputs f_min f_max bit_width method round_mode per_channel false
      = Except.ok (get_quantize_pos_non_overflow_asym inputs f_min f_max
          (q_min_of bit_width) (q_max_of bit_width) per_channel) := by
  simp [get_quantize_pos]

/-! ### C9 -/

/-- C9: for the symmetric min-max kernel with inputs `[-2, 0, 2]`, range
`[-1, 1]` and upstream gradient `dy = [1, 1, 1]`, the gradient with respect
to the inputs is `[0, 1, 0]`: `dy` passes exactly where the input lies in
`[f_min, f_max]` and is blocked elsewhere. -/
theorem c9_gradient_mask :
    (fake_quantize_with_min_max_py3_sym_grad [-2, 0, 2] [-1] [1] [1, 1, 1]).1
      = [0, 1, 0] := by
  norm_num [fake_quantize_with_min_max_py3_sym_grad, bmap₂, List.zipWith]

/-! ### C10 -/

/-- C10: `MovingAvgMinMaxQuantize` always quantizes asymmetrically: the key
it validates (with its internally fixed `symmetry = false`) can only resolve
to one of the two asymmetric MIN_MAX kernels; any call of the op that does
not fail used round mode 0 (there is no symmetric fallback — a DPU round mode
fails even though a symmetric DPU key exists for other ops); and the batch
range it estimates (`get_min_max` with `symmetry = false`) is always clamped
to contain zero, for every input, bit width and per-channel setting. -/
theorem c10_moving_avg_always_asym :
    (∀ (round_mode : ℕ) (per_channel : Bool) (k : String),
      get_quantize_kernel_key "MIN_MAX" round_mode false per_channel = .ok k →
        k = "MIN_MAX_PY3_ASYM" ∨ k = "MIN_MAX_PY3_ASYM_PERC") ∧
    (∀ (inputs : List ℚ) (st : MovingAvgState) (bit_width round_mode : ℕ)
      (mode : String) (is_training per_channel : Bool) (ema_decay : ℚ)
      (r : List ℚ × MovingAvgState),
      MovingAvgMinMaxQuantize inputs st bit_width round_mode mode is_training
        per_channel ema_decay = .ok r → round_mode = 0) ∧
    (∀ (inputs : List ℚ) (bit_width : ℕ) (per_channel : Bool),
      (∀ v ∈ (get_min_max inputs bit_width false per_channel).1, v ≤ 0) ∧
      (∀ v ∈ (get_min_max inputs bit_width false per_channel).2, 0 ≤ v)) := by
  refine ⟨?_, ?_, ?_⟩
  · intro round_mode per_channel k h
    rcases round_mode with _ | _ | _ | n <;> cases per_channel <;>
      simp [get_quantize_kernel_key, quantize_kernel_map_keys] at h <;> simp [h]
  · intro inputs st bit_width round_mode mode is_training per_channel ema_decay r h
    rcases round_mode with _ | _ | _ | n
    · rfl
    all_goals
      exfalso
      cases per_channel <;>
        simp [MovingAvgMinMaxQuantize, get_quantize_kernel_key,
          quantize_kernel_map_keys, Bind.bind, Except.bind] at h
  · intro inputs bit_width per_channel
    constructor <;> intro v hv <;>
      simp only [get_min_max, narrow_range, Bool.false_eq_true, if_false,
        List.mem_map] at hv <;>
      obtain ⟨b, hb, rfl⟩ := hv
    · exact min_le_right _ _
    · exact le_max_right _ _

/-- Concrete kernel-key computation used by witnesses. -/
lemma kernel_key_minmax_asym_eval :
    get_quantize_kernel_key "MIN_MAX" 0 false false = Except.ok "MIN_MAX_PY3_ASYM" := rfl

/-- Concrete all-zero ANALYSE run of the moving-average op. -/
lemma mavg_analyse_zero_eval :
    MovingAvgMinMaxQuantize [0] ⟨[0],[0],[0],[0],0,0⟩ 8 0 "ANALYSE" false false (999/1000)
      = Except.ok ([0], ⟨[0],[0],[0],[0],0,0⟩) := by
  norm_num [MovingAvgMinMaxQuantize, kernel_key_minmax_asym_eval,
    Bind.bind, Except.bind, get_min_max, reduce_min, reduce_max, narrow_range,
    assign_moving_average_l, assign_moving_average, List.zipWith3, pure, Except.pure]

/-- Witness instantiating `c10_moving_avg_always_asym` at concrete inputs. -/
theorem c10_moving_avg_always_asym_witness :
    ("MIN_MAX_PY3_ASYM" = "MIN_MAX_PY3_ASYM" ∨ "MIN_MAX_PY3_ASYM" = "MIN_MAX_PY3_ASYM_PERC")
    ∧ (0 = 0)
    ∧ ((∀ v ∈ (get_min_max [1] 8 false false).1, v ≤ 0) ∧
       (∀ v ∈ (get_min_max [1] 8 false false).2, 0 ≤ v)) :=
  ⟨c10_moving_avg_always_asym.1 0 false "MIN_MAX_PY3_ASYM" kernel_key_minmax_asym_eval,
   c10_moving_avg_always_asym.2.1 [0] ⟨[0],[0],[0],[0],0,0⟩ 8 0 "ANALYSE" false false
     (999/1000) ([0], ⟨[0],[0],[0],[0],0,0⟩) mavg_analyse_zero_eval,
   c10_moving_avg_always_asym.2.2 [1] 8 false⟩

/-! ### C6 -/

/-- Projection of the zero point as a single conditional. -/
lemma quantize_zero_point_fst (scale f_min f_max q_min q_max : ℚ) :
    (quantize_zero_point scale f_min f_max q_min q_max).1 =
      if q_max < q_min - f_min * scale then q_max
      else if q_min - f_min * scale < q_min then q_min
      else std_round (q_min - f_min * scale) := by
  simp [quantize_zero_point]

/-- The recomputed bounds are the clamped zero point mapped back to float range. -/
lemma quantize_zero_point_snd (scale f_min f_max q_min q_max : ℚ) :
    (quantize_zero_point scale f_min f_max q_min q_max).2.1
        = (q_min - (quantize_zero_point scale f_min f_max q_min q_max).1) / scale ∧
      (quantize_zero_point scale f_min f_max q_min q_max).2.2
        = (q_max - (quantize_zero_point scale f_min f_max q_min q_max).1) / scale := by
  constructor <;> simp [quantize_zero_point]

/-- C6: for scale > 0 and integer bounds q_min < q_max, the quantized zero
point is an integer in [q_min, q_max]; an unrounded zero point below q_min
snaps to q_min, above q_max snaps to q_max, and otherwise is rounded
half-away-from-zero; and the recomputed bounds satisfy
new_f_min <= 0 <= new_f_max whenever the original range spans zero. -/
theorem c6_zero_point (scale f_min f_max : ℚ) (z_min z_max : ℤ)
    (hs : 0 < scale) (hz : z_min < z_max) :
    (∃ z : ℤ, (quantize_zero_point scale f_min f_max z_min z_max).1 = z) ∧
    ((z_min : ℚ) ≤ (quantize_zero_point scale f_min f_max z_min z_max).1 ∧
      (quantize_zero_point scale f_min f_max z_min z_max).1 ≤ (z_max : ℚ)) ∧
    ((z_min : ℚ) - f_min * scale < z_min →
      (quantize_zero_point scale f_min f_max z_min z_max).1 = z_min) ∧
    ((z_max : ℚ) < (z_min : ℚ) - f_min * scale →
      (quantize_zero_point scale f_min f_max z_min z_max).1 = z_max) ∧
    ((z_min : ℚ) ≤ (z_min : ℚ) - f_min * scale → (z_min : ℚ) - f_min * scale ≤ (z_max : ℚ) →
      (quantize_zero_point scale f_min f_max z_min z_max).1
        = std_round ((z_min : ℚ) - f_min * scale)) ∧
    (f_min ≤ 0 → 0 ≤ f_max →
      (quantize_zero_point scale f_min f_max z_min z_max).2.1 ≤ 0 ∧
      0 ≤ (quantize_zero_point scale f_min f_max z_min z_max).2.2) := by
  have hzz : (z_min : ℚ) ≤ (z_max : ℚ) := by exact_mod_cast hz.le
  have hfst := quantize_zero_point_fst scale f_min f_max z_min z_max
  have hsnd := quantize_zero_point_snd scale f_min f_max z_min z_max
  have hbnd : (z_min : ℚ) ≤ (quantize_zero_point scale f_min f_max z_min z_max).1 ∧
      (quantize_zero_point scale f_min f_max z_min z_max).1 ≤ (z_max : ℚ) := by
    rw [hfst]
    split_ifs with ha hb
    · exact ⟨hzz, le_refl _⟩
    · exact ⟨le_refl _, hzz⟩
    · push_neg at ha hb
      exact std_round_bounds hb ha
  refine ⟨?_, hbnd, ?_, ?_, ?_, ?_⟩
  · rw [hfst]
    split_ifs
    · exact ⟨z_max, rfl⟩
    · exact ⟨z_min, rfl⟩
    · exact std_round_int _
  · intro h
    rw [hfst, if_neg (by linarith), if_pos h]
  · intro h
    rw [hfst, if_pos h]
  · intro h1 h2
    rw [hfst, if_neg (by linarith), if_neg (by linarith)]
  · intro hm hx
    constructor
    · rw [hsnd.1]
      exact div_nonpos_of_nonpos_of_nonneg (by linarith [hbnd.1]) hs.le
    · rw [hsnd.2]
      exact div_nonneg (by linarith [hbnd.2]) hs.le

/-- Witness instantiating `c6_zero_point` at scale 1, range [-1/2, 1/2],
bounds [-128, 127]. -/
theorem c6_zero_point_witness :
    (0:ℚ) < 1 ∧ (-128:ℤ) < 127 ∧
    ((((-128:ℤ)):ℚ) ≤ (quantize_zero_point 1 (-1/2) (1/2) (-128) 127).1 ∧
      (quantize_zero_point 1 (-1/2) (1/2) (-128) 127).1 ≤ (((127:ℤ)):ℚ)) ∧
    ((quantize_zero_point 1 (-1/2) (1/2) (-128) 127).2.1 ≤ 0 ∧
      0 ≤ (quantize_zero_point 1 (-1/2) (1/2) (-128) 127).2.2) :=
  ⟨by norm_num, by norm_num,
    (c6_zero_point 1 (-1/2) (1/2) (-128) 127 (by norm_num) (by norm_num)).2.1,
    (c6_zero_point 1 (-1/2) (1/2) (-128) 127 (by norm_num) (by norm_num)).2.2.2.2.2
      (by norm_num) (by norm_num)⟩

/-! ### C7 -/

/-- Clip to [lo, hi] is the identity inside the bounds. -/
lemma clip_eq_of_bounds {x lo hi : ℚ} (h1 : lo ≤ x) (h2 : x ≤ hi) :
    clip_by_value x lo hi = x := by
  simp [clip_by_value, max_eq_left h1, min_eq_left h2]

/-- Clip always lands in [lo, hi] when lo <= hi. -/
lemma clip_bounds (x : ℚ) {lo hi : ℚ} (h : lo ≤ hi) :
    lo ≤ clip_by_value x lo hi ∧ clip_by_value x lo hi ≤ hi :=
  ⟨le_min (le_max_right x lo) h, min_le_right _ _⟩

/-- Core of the round-trip bound: a rounding with error at most 1/2 whose
result stays inside the clip bounds dequantizes to within 1/(2s). -/
lemma round_trip_core {s x t q_min q_max r : ℚ} (hs : 0 < s) (ht : t = x * s)
    (habs : |r - t| ≤ 1/2) (hb1 : q_min ≤ r) (hb2 : r ≤ q_max) :
    |clip_by_value r q_min q_max / s - x| ≤ 1 / (2 * s) := by
  rw [clip_eq_of_bounds hb1 hb2]
  have hdiff : r / s - x = (r - t) / s := by
    rw [ht]; field_simp; ring
  rw [hdiff, abs_div, abs_of_pos hs]
  calc |r - t| / s ≤ (1/2) / s := (div_le_div_iff_of_pos_right hs).mpr habs
    _ = 1 / (2 * s) := by ring

/-- C7: for a symmetric kernel (py3 or dpu round) with scale s > 0 and
bounds from the bit width, any input inside [q_min/s, q_max/s] reconstructs
to within 1/(2s), and for every input the quantize output lies inside
[q_min, q_max]. -/
theorem c7_sym_round_trip (b : ℕ) (s : ℚ) (hs : 0 < s) :
    (∀ x : ℚ, q_min_of b / s ≤ x → x ≤ q_max_of b / s →
      |sym_dequantize_s (py3_sym_quantize_s x s (q_min_of b) (q_max_of b)) s - x|
          ≤ 1 / (2 * s) ∧
      |sym_dequantize_s (dpu_sym_quantize_s x s (q_min_of b) (q_max_of b)) s - x|
          ≤ 1 / (2 * s)) ∧
    (∀ y : ℚ,
      (q_min_of b ≤ py3_sym_quantize_s y s (q_min_of b) (q_max_of b) ∧
        py3_sym_quantize_s y s (q_min_of b) (q_max_of b) ≤ q_max_of b) ∧
      (q_min_of b ≤ dpu_sym_quantize_s y s (q_min_of b) (q_max_of b) ∧
        dpu_sym_quantize_s y s (q_min_of b) (q_max_of b) ≤ q_max_of b)) := by
  have hbp : (1:ℚ) ≤ 2 ^ (b - 1) := one_le_pow₀ (by norm_num)
  have hq1 : q_min_of b = ((-(2 ^ (b - 1)) : ℤ) : ℚ) := by
    simp only [q_min_of, narrow_range, Bool.false_eq_true, if_false]
    push_cast
    ring
  have hq2 : q_max_of b = ((2 ^ (b - 1) - 1 : ℤ) : ℚ) := by
    simp only [q_max_of]
    push_cast
    ring
  have hle : q_min_of b ≤ q_max_of b := by
    rw [hq1, hq2]
    push_cast
    linarith
  constructor
  · intro x hx1 hx2
    have ht1 : q_min_of b ≤ x * s := (div_le_iff₀ hs).1 hx1
    have ht2 : x * s ≤ q_max_of b := (le_div_iff₀ hs).1 hx2
    have hpy := @tf_round_bounds (x * s) (-(2 ^ (b - 1))) (2 ^ (b - 1) - 1)
      (by rw [← hq1]; exact ht1) (by rw [← hq2]; exact ht2)
    have hdp := @dpu_round_bounds (x * s) (-(2 ^ (b - 1))) (2 ^ (b - 1) - 1)
      (by rw [← hq1]; exact ht1) (by rw [← hq2]; exact ht2)
    constructor
    · simp only [py3_sym_quantize_s, sym_dequantize_s, py3_round]
      exact round_trip_core hs rfl (tf_round_abs_sub (x * s))
        (by rw [hq1]; exact hpy.1) (by rw [hq2]; exact hpy.2)
    · simp only [dpu_sym_quantize_s, sym_dequantize_s]
      exact round_trip_core hs rfl (dpu_round_abs_sub (x * s))
        (by rw [hq1]; exact hdp.1) (by rw [hq2]; exact hdp.2)
  · intro y
    exact ⟨clip_bounds _ hle, clip_bounds _ hle⟩

/-- Witness instantiating `c7_sym_round_trip` at bit width 8, scale 4,
input 3/8. -/
theorem c7_sym_round_trip_witness :
    (0:ℚ) < 4 ∧ q_min_of 8 / 4 ≤ (3/8 : ℚ) ∧ (3/8 : ℚ) ≤ q_max_of 8 / 4 ∧
    (|sym_dequantize_s (py3_sym_quantize_s (3/8) 4 (q_min_of 8) (q_max_of 8)) 4 - 3/8|
        ≤ 1 / (2 * 4) ∧
      |sym_dequantize_s (dpu_sym_quantize_s (3/8) 4 (q_min_of 8) (q_max_of 8)) 4 - 3/8|
        ≤ 1 / (2 * 4)) ∧
    (q_min_of 8 ≤ py3_sym_quantize_s 100 4 (q_min_of 8) (q_max_of 8) ∧
      py3_sym_quantize_s 100 4 (q_min_of 8) (q_max_of 8) ≤ q_max_of 8) :=
  ⟨by norm_num, by norm_num [q_min_of, q_max_of, narrow_range],
   by norm_num [q_max_of],
   (c7_sym_round_trip 8 4 (by norm_num)).1 (3/8)
     (by norm_num [q_min_of, narrow_range]) (by norm_num [q_max_of]),
   ((c7_sym_round_trip 8 4 (by norm_num)).2 100).1⟩

/-! ### C8 -/

/-- C8: for a range spanning zero and integer bounds q_min < 0 < q_max, the
symmetric non-overflow position p satisfies the exact floor characterisation
`2^p * s_inv ≤ 1 < 2^(p+1) * s_inv` of `p = floor(-log2 s_inv)` with
`s_inv = max(f_min/q_min, f_max/q_max, epsilon)`, and with scale `2^p` no
value of [f_min, f_max] saturates: both roundings of every scaled input stay
inside [q_min, q_max], so the clip of the quantize kernel does not alter
them. -/
theorem c8_non_overflow_no_saturation (f_min f_max : ℚ) (z_min z_max : ℤ)
    (hf1 : f_min ≤ 0) (hf2 : 0 ≤ f_max) (hz1 : z_min < 0) (hz2 : 0 < z_max) :
    ((2:ℚ) ^ non_overflow_pos_s f_min f_max z_min z_max
        * max (max (f_min / z_min) (f_max / z_max)) float_epsilon ≤ 1 ∧
      1 < (2:ℚ) ^ (non_overflow_pos_s f_min f_max z_min z_max + 1)
        * max (max (f_min / z_min) (f_max / z_max)) float_epsilon) ∧
    (∀ x : ℚ, f_min ≤ x → x ≤ f_max →
      ((z_min:ℚ) ≤ py3_round (x * 2 ^ non_overflow_pos_s f_min f_max z_min z_max) ∧
        py3_round (x * 2 ^ non_overflow_pos_s f_min f_max z_min z_max) ≤ (z_max:ℚ)) ∧
      ((z_min:ℚ) ≤ dpu_round (x * 2 ^ non_overflow_pos_s f_min f_max z_min z_max) ∧
        dpu_round (x * 2 ^ non_overflow_pos_s f_min f_max z_min z_max) ≤ (z_max:ℚ)) ∧
      clip_by_value (py3_round (x * 2 ^ non_overflow_pos_s f_min f_max z_min z_max))
          z_min z_max
        = py3_round (x * 2 ^ non_overflow_pos_s f_min f_max z_min z_max) ∧
      clip_by_value (dpu_round (x * 2 ^ non_overflow_pos_s f_min f_max z_min z_max))
          z_min z_max
        = dpu_round (x * 2 ^ non_overflow_pos_s f_min f_max z_min z_max)) := by
  set s_inv := max (max (f_min / z_min) (f_max / z_max)) float_epsilon with hsinv
  have heps : (0:ℚ) < float_epsilon := by rw [float_epsilon]; positivity
  have hpos : 0 < s_inv := lt_of_lt_of_le heps (le_max_right _ _)
  have hspec : (2:ℚ) ^ floor_neg_log2 s_inv * s_inv ≤ 1 ∧
      1 < (2:ℚ) ^ (floor_neg_log2 s_inv + 1) * s_inv := floor_neg_log2_spec hpos
  have hpdef : non_overflow_pos_s f_min f_max z_min z_max = floor_neg_log2 s_inv := rfl
  set p := non_overflow_pos_s f_min f_max z_min z_max with hp
  have hzmin : ((z_min:ℚ)) < 0 := by exact_mod_cast hz1
  have hzmax : (0:ℚ) < (z_max:ℚ) := by exact_mod_cast hz2
  have hppow : (0:ℚ) < 2 ^ p := zpow_pos (by norm_num) p
  have hmax1 : f_min / z_min ≤ s_inv := le_trans (le_max_left _ _) (le_max_left _ _)
  have hmax2 : f_max / z_max ≤ s_inv := le_trans (le_max_right _ _) (le_max_left _ _)
  have hfu : f_max * 2 ^ p ≤ z_max := by
    have h1 : f_max ≤ s_inv * z_max := (div_le_iff₀ hzmax).1 hmax2
    have h2 : f_max * 2 ^ p ≤ s_inv * z_max * 2 ^ p :=
      mul_le_mul_of_nonneg_right h1 hppow.le
    have h3 : s_inv * z_max * 2 ^ p = z_max * (2 ^ p * s_inv) := by ring
    have h4 : (z_max:ℚ) * (2 ^ p * s_inv) ≤ z_max * 1 := by
      apply mul_le_mul_of_nonneg_left _ hzmax.le
      rw [hpdef]
      exact hspec.1
    linarith
  have hfl : (z_min:ℚ) ≤ f_min * 2 ^ p := by
    have h1 : s_inv * z_min ≤ f_min := by
      rw [div_le_iff_of_neg hzmin] at hmax1
      linarith [hmax1]
    have h2 : s_inv * z_min * 2 ^ p ≤ f_min * 2 ^ p :=
      mul_le_mul_of_nonneg_right h1 hppow.le
    have h3 : s_inv * z_min * 2 ^ p = z_min * (2 ^ p * s_inv) := by ring
    have h4 : (z_min:ℚ) * 1 ≤ z_min * (2 ^ p * s_inv) := by
      apply mul_le_mul_of_nonpos_left _ hzmin.le
      rw [hpdef]
      exact hspec.1
    linarith
  constructor
  · rw [hpdef]
    exact hspec
  · intro x hx1 hx2
    have hxl : (z_min:ℚ) ≤ x * 2 ^ p :=
      le_trans hfl (mul_le_mul_of_nonneg_right hx1 hppow.le)
    have hxu : x * 2 ^ p ≤ (z_max:ℚ) :=
      le_trans (mul_le_mul_of_nonneg_right hx2 hppow.le) hfu
    have hpy := @tf_round_bounds (x * 2 ^ p) z_min z_max hxl hxu
    have hdp := @dpu_round_bounds (x * 2 ^ p) z_min z_max hxl hxu
    refine ⟨⟨hpy.1, hpy.2⟩, ⟨hdp.1, hdp.2⟩, ?_, ?_⟩
    · exact clip_eq_of_bounds hpy.1 hpy.2
    · exact clip_eq_of_bounds hdp.1 hdp.2

/-- Witness instantiating `c8_non_overflow_no_saturation` at range [-1, 1],
bounds [-128, 127], sample input 1/2. -/
theorem c8_non_overflow_no_saturation_witness :
    (((-1:ℚ) ≤ 0) ∧ ((0:ℚ) ≤ 1) ∧ ((-128:ℤ) < 0) ∧ ((0:ℤ) < 127)) ∧
    ((2:ℚ) ^ non_overflow_pos_s (-1) 1 ((-128:ℤ)) ((127:ℤ))
        * max (max ((-1:ℚ) / ((-128:ℤ):ℚ)) ((1:ℚ) / ((127:ℤ):ℚ))) float_epsilon ≤ 1 ∧
      1 < (2:ℚ) ^ (non_overflow_pos_s (-1) 1 ((-128:ℤ)) ((127:ℤ)) + 1)
        * max (max ((-1:ℚ) / ((-128:ℤ):ℚ)) ((1:ℚ) / ((127:ℤ):ℚ))) float_epsilon) ∧
    ((((-128:ℤ):ℚ) ≤ py3_round ((1/2) * 2 ^ non_overflow_pos_s (-1) 1 ((-128:ℤ)) ((127:ℤ))) ∧
        py3_round ((1/2) * 2 ^ non_overflow_pos_s (-1) 1 ((-128:ℤ)) ((127:ℤ))) ≤ ((127:ℤ):ℚ)) ∧
      (((-128:ℤ):ℚ) ≤ dpu_round ((1/2) * 2 ^ non_overflow_pos_s (-1) 1 ((-128:ℤ)) ((127:ℤ))) ∧
        dpu_round ((1/2) * 2 ^ non_overflow_pos_s (-1) 1 ((-128:ℤ)) ((127:ℤ))) ≤ ((127:ℤ):ℚ)) ∧
      clip_by_value (py3_round ((1/2) * 2 ^ non_overflow_pos_s (-1) 1 ((-128:ℤ)) ((127:ℤ))))
          ((-128:ℤ)) ((127:ℤ))
        = py3_round ((1/2) * 2 ^ non_overflow_pos_s (-1) 1 ((-128:ℤ)) ((127:ℤ))) ∧
      clip_by_value (dpu_round ((1/2) * 2 ^ non_overflow_pos_s (-1) 1 ((-128:ℤ)) ((127:ℤ))))
          ((-128:ℤ)) ((127:ℤ))
        = dpu_round ((1/2) * 2 ^ non_overflow_pos_s (-1) 1 ((-128:ℤ)) ((127:ℤ)))) :=
  ⟨⟨by norm_num, by norm_num, by norm_num, by norm_num⟩,
   (c8_non_overflow_no_saturation (-1) 1 (-128) 127
     (by norm_num) (by norm_num) (by norm_num) (by norm_num)).1,
   (c8_non_overflow_no_saturation (-1) 1 (-128) 127
     (by norm_num) (by norm_num) (by norm_num) (by norm_num)).2 (1/2)
     (by norm_num) (by norm_num)⟩

/-! ### C4 -/

/-- Reading a five-element list of function values at an index below 5. -/
lemma getD_five (d : ℕ → ℚ) {j : ℕ} (hj : j < 5) :
    [d 0, d 1, d 2, d 3, d 4].getD j 0 = d j := by
  interval_cases j <;> rfl

/-- C4: both min-diffs searches evaluate exactly the five candidate
positions `non_overflow_pos + i`, `i = 0..4`, and return `non_overflow_pos`
plus the index of the minimum reconstruction error, the lowest index winning
ties (every earlier candidate has strictly larger error); repeated calls
return the same position (the searches are pure functions). -/
theorem c4_min_diffs_argmin (inputs f_min f_max : List ℚ) (q_min q_max : ℚ)
    (bit_width : ℕ) (per_channel : Bool) :
    (∃ i : ℕ, i < 5 ∧
      get_quantize_pos_min_diffs_py3_sym inputs f_min f_max q_min q_max bit_width per_channel
        = (get_quantize_pos_non_overflow_sym inputs f_min f_max q_min q_max per_channel).map
            (fun p => p + (i:ℤ)) ∧
      (∀ j, j < 5 →
        min_diffs_diff_py3 inputs
            (get_quantize_pos_non_overflow_sym inputs f_min f_max q_min q_max per_channel)
            q_min q_max i
          ≤ min_diffs_diff_py3 inputs
            (get_quantize_pos_non_overflow_sym inputs f_min f_max q_min q_max per_channel)
            q_min q_max j) ∧
      (∀ j, j < i →
        min_diffs_diff_py3 inputs
            (get_quantize_pos_non_overflow_sym inputs f_min f_max q_min q_max per_channel)
            q_min q_max i
          < min_diffs_diff_py3 inputs
            (get_quantize_pos_non_overflow_sym inputs f_min f_max q_min q_max per_channel)
            q_min q_max j)) ∧
    (∃ i : ℕ, i < 5 ∧
      get_quantize_pos_min_diffs_dpu_sym inputs f_min f_max q_min q_max bit_width per_channel
        = (get_quantize_pos_non_overflow_sym inputs f_min f_max q_min q_max per_channel).map
            (fun p => p + (i:ℤ)) ∧
      (∀ j, j < 5 →
        min_diffs_diff_dpu inputs
            (get_quantize_pos_non_overflow_sym inputs f_min f_max q_min q_max per_channel)
            q_min q_max i
          ≤ min_diffs_diff_dpu inputs
            (get_quantize_pos_non_overflow_sym inputs f_min f_max q_min q_max per_channel)
            q_min q_max j) ∧
      (∀ j, j < i →
        min_diffs_diff_dpu inputs
            (get_quantize_pos_non_overflow_sym inputs f_min f_max q_min q_max per_channel)
            q_min q_max i
          < min_diffs_diff_dpu inputs
            (get_quantize_pos_non_overflow_sym inputs f_min f_max q_min q_max per_channel)
            q_min q_max j)) ∧
    (get_quantize_pos_min_diffs_py3_sym inputs f_min f_max q_min q_max bit_width per_channel
      = get_quantize_pos_min_diffs_py3_sym inputs f_min f_max q_min q_max bit_width
          per_channel ∧
     get_quantize_pos_min_diffs_dpu_sym inputs f_min f_max q_min q_max bit_width per_channel
      = get_quantize_pos_min_diffs_dpu_sym inputs f_min f_max q_min q_max bit_width
          per_channel) := by
  set pos := get_quantize_pos_non_overflow_sym inputs f_min f_max q_min q_max per_channel
    with hpos
  refine ⟨?_, ?_, rfl, rfl⟩
  · set d := min_diffs_diff_py3 inputs pos q_min q_max with hd
    have h5 := tf_argmin_five (d 0) (d 1) (d 2) (d 3) (d 4)
    refine ⟨tf_argmin [d 0, d 1, d 2, d 3, d 4], h5.1, rfl, ?_, ?_⟩
    · intro j hj
      have hm := h5.2.1 j hj
      rwa [getD_five d hj, getD_five d h5.1] at hm
    · intro j hj
      have hj5 : j < 5 := lt_trans hj h5.1
      have hm := h5.2.2 j hj
      rwa [getD_five d hj5, getD_five d h5.1] at hm
  · set d := min_diffs_diff_dpu inputs pos q_min q_max with hd
    have h5 := tf_argmin_five (d 0) (d 1) (d 2) (d 3) (d 4)
    refine ⟨tf_argmin [d 0, d 1, d 2, d 3, d 4], h5.1, rfl, ?_, ?_⟩
    · intro j hj
      have hm := h5.2.1 j hj
      rwa [getD_five d hj, getD_five d h5.1] at hm
    · intro j hj
      have hj5 : j < 5 := lt_trans hj h5.1
      have hm := h5.2.2 j hj
      rwa [getD_five d hj5, getD_five d h5.1] at hm

/-! ### C2 -/

/-- Concrete TRAIN-mode run (mode "QAT", is_training) of the quantize-pos op
on input `[0]` starting from zeroed state: the position variable is
recomputed and overwritten with 52 (the non-overflow position of the epsilon
range). -/
lemma qp_train_zero_eval :
    LastValueQuantPosQuantize [0] ⟨[0],[0],[0]⟩ 8 0 0 "QAT" true true false
      = Except.ok ([0], ⟨[52], [0], [0]⟩) := by
  have hkey : get_quantize_kernel_key "QUANTIZE_POS" 0 true false
      = Except.ok "QUANTIZE_POS_PY3_SYM" := rfl
  have hqa : ("QAT" = "ANALYSE") = False := eq_false (by decide)
  have hmax : (0 : ℚ) ⊔ float_epsilon = float_epsilon := by
    rw [float_epsilon]; norm_num
  have heps : floor_neg_log2 float_epsilon = 52 :=
    floor_neg_log2_eq (by rw [float_epsilon]; positivity)
      (by norm_num [float_epsilon]) (by norm_num [float_epsilon])
  norm_num [LastValueQuantPosQuantize, hkey, Bind.bind, Except.bind, get_min_max,
    reduce_min, reduce_max, narrow_range, get_quantize_pos,
    get_quantize_pos_non_overflow_sym, non_overflow_pos_s, heps,
    fake_quantize_with_quantize_pos_py3_sym, py3_sym_quantize, sym_dequantize,
    bmap₂, py3_sym_quantize_s, sym_dequantize_s, py3_round, tf_round, clip_by_value,
    q_min_of, q_max_of, pure, Except.pure, List.zipWith, hqa, hmax]

/-- C2 counterexample: a TRAIN-mode call (is_training true, mode "QAT", i.e.
not 'QCB') of the quantize-position op does NOT leave `quant_pos_var`
unchanged — starting from position `[0]` it overwrites it with `[52]`. -/
theorem c2_counterexample :
    LastValueQuantPosQuantize [0] ⟨[0],[0],[0]⟩ 8 0 0 "QAT" true true false
      = Except.ok ([0], ⟨[52], [0], [0]⟩) ∧
    (result_state (LastValueQuantPosQuantize [0] ⟨[0],[0],[0]⟩ 8 0 0 "QAT" true true false)
        ⟨[0],[0],[0]⟩).quant_pos_var ≠ ([0] : List ℤ) := by
  refine ⟨qp_train_zero_eval, ?_⟩
  rw [qp_train_zero_eval]
  simp [result_state]

/-- C2 amended: the log-threshold state is indeed written only during QCB —
every call with mode ≠ 'QCB' (training, ANALYSE, evaluation or error) leaves
`log_th_var` unchanged — but the quantize-position op recomputes and
overwrites `quant_pos_var` from the fresh batch range on EVERY training step
(is_training true, any mode except ANALYSE), not only during QCB; min/max
are updated with the batch range as well. -/
theorem c2_amended :
    (∀ (inputs : List ℚ) (st : LogThState) (bit_width method round_mode : ℕ)
      (mode : String) (is_training : Bool), mode ≠ "QCB" →
      (result_state (LastValueLogThQuantize inputs st bit_width method round_mode mode
          is_training) st).log_th_var = st.log_th_var) ∧
    (∀ (inputs : List ℚ) (st : QuantPosState) (bit_width method round_mode : ℕ)
      (mode : String) (symmetry per_channel : Bool) (out : List ℚ) (st2 : QuantPosState),
      mode ≠ "ANALYSE" →
      LastValueQuantPosQuantize inputs st bit_width method round_mode mode true
          symmetry per_channel = Except.ok (out, st2) →
      get_quantize_pos inputs (get_min_max inputs bit_width symmetry per_channel).1
          (get_min_max inputs bit_width symmetry per_channel).2 bit_width method
          round_mode per_channel symmetry = Except.ok st2.quant_pos_var ∧
        st2.min_var = (get_min_max inputs bit_width symmetry per_channel).1 ∧
        st2.max_var = (get_min_max inputs bit_width symmetry per_channel).2) := by
  constructor
  · intro inputs st bit_width method round_mode mode is_training hmode
    rcases hk : get_quantize_kernel_key "LOG_TH" round_mode true false with e | k
    · simp [LastValueLogThQuantize, Bind.bind, Except.bind, hk, result_state]
    · simp only [LastValueLogThQuantize, Bind.bind, Except.bind, hk]
      by_cases h1 : mode = "ANALYSE"
      · simp [h1, result_state, pure, Except.pure]
      · rw [if_neg h1]
        by_cases h2 : is_training = true ∨ mode = "QCB"
        · rw [if_pos h2, if_neg hmode]
          simp [result_state, pure, Except.pure]
        · rw [if_neg h2]
          simp [result_state, pure, Except.pure]
  · intro inputs st bit_width method round_mode mode symmetry per_channel out st2 hmode h
    rcases hk : get_quantize_kernel_key "QUANTIZE_POS" round_mode symmetry per_channel
        with e | k
    · simp [LastValueQuantPosQuantize, Bind.bind, Except.bind, hk] at h
    · simp only [LastValueQuantPosQuantize, Bind.bind, Except.bind, hk] at h
      rw [if_neg hmode] at h
      rw [if_pos (show True ∨ mode = "QCB" from Or.inl trivial)] at h
      rcases hq : get_quantize_pos inputs
          (get_min_max inputs bit_width symmetry per_channel).1
          (get_min_max inputs bit_width symmetry per_channel).2 bit_width method
          round_mode per_channel symmetry with e2 | bpos
      · rw [hq] at h
        simp at h
      · rw [hq] at h
        simp only [pure, Except.pure, Except.ok.injEq, Prod.mk.injEq] at h
        obtain ⟨-, hst⟩ := h
        subst hst
        exact ⟨rfl, rfl, rfl⟩

/-- Witness instantiating both halves of `c2_amended`: an evaluation-mode
log-threshold call keeps `log_th_var`; the concrete TRAIN run of the
quantize-pos op stores exactly the freshly computed batch position and batch
range. -/
theorem c2_amended_witness :
    (("QCBEV" : String) ≠ "QCB") ∧
    (result_state (LastValueLogThQuantize [0] ⟨0, 0, 0⟩ 8 0 0 "QCBEV" false)
        ⟨0, 0, 0⟩).log_th_var = (⟨0, 0, 0⟩ : LogThState).log_th_var ∧
    (("QAT" : String) ≠ "ANALYSE") ∧
    (get_quantize_pos [0] (get_min_max [0] 8 true false).1 (get_min_max [0] 8 true false).2
        8 0 0 false true = Except.ok ([52] : List ℤ) ∧
      ([0] : List ℚ) = (get_min_max [0] 8 true false).1 ∧
      ([0] : List ℚ) = (get_min_max [0] 8 true false).2) :=
  ⟨by decide,
   c2_amended.1 [0] ⟨0, 0, 0⟩ 8 0 0 "QCBEV" false (by decide),
   by decide,
   c2_amended.2 [0] ⟨[0], [0], [0]⟩ 8 0 0 "QAT" true false [0] ⟨[52], [0], [0]⟩
     (by decide) qp_train_zero_eval⟩

/-! ### C5 -/

/-- Concrete ANALYSE run of the moving-average op on input `[-1]`: the
stored minimum becomes `-1/1000` (an EMA step), not the batch minimum `-1`. -/
lemma mavg_analyse_neg_eval :
    MovingAvgMinMaxQuantize [-1] ⟨[0],[0],[0],[0],0,0⟩ 8 0 "ANALYSE" false false (999/1000)
      = Except.ok ([-1], ⟨[-1/1000], [0], [0], [0], 0, 0⟩) := by
  norm_num [MovingAvgMinMaxQuantize, kernel_key_minmax_asym_eval,
    Bind.bind, Except.bind, get_min_max, reduce_min, reduce_max, narrow_range,
    assign_moving_average_l, assign_moving_average, List.zipWith3, pure, Except.pure]

/-- Concrete ANALYSE run of the last-value op: the stored range is replaced
by the batch range directly. -/
lemma lv_minmax_analyse_eval :
    LastValueMinMaxQuantize [0] ⟨[1],[2]⟩ 8 0 "ANALYSE" false true false
      = Except.ok ([0], ⟨[0], [0]⟩) := by
  have hkey : get_quantize_kernel_key "MIN_MAX" 0 true false
      = Except.ok "MIN_MAX_PY3_SYM" := rfl
  norm_num [LastValueMinMaxQuantize, hkey, Bind.bind, Except.bind, get_min_max,
    reduce_min, reduce_max, narrow_range, bmap₂, pure, Except.pure]

/-- C5 counterexample: in ANALYSE mode the moving-average op does NOT use a
direct (non-EMA) assignment for its min/max statistics: on input `[-1]` the
batch minimum is `-1` but the stored minimum becomes `-1/1000` (an
exponential moving average step with zero_debias = false). -/
theorem c5_counterexample :
    MovingAvgMinMaxQuantize [-1] ⟨[0],[0],[0],[0],0,0⟩ 8 0 "ANALYSE" false false (999/1000)
      = Except.ok ([-1], ⟨[-1/1000], [0], [0], [0], 0, 0⟩) ∧
    (get_min_max [-1] 8 false false).1 = [-1] ∧
    (result_state (MovingAvgMinMaxQuantize [-1] ⟨[0],[0],[0],[0],0,0⟩ 8 0 "ANALYSE"
        false false (999/1000)) ⟨[0],[0],[0],[0],0,0⟩).min_var
      ≠ (get_min_max [-1] 8 false false).1 := by
  refine ⟨mavg_analyse_neg_eval, ?_, ?_⟩
  · norm_num [get_min_max, reduce_min, reduce_max, narrow_range]
  · rw [mavg_analyse_neg_eval]
    norm_num [result_state, get_min_max, reduce_min, reduce_max, narrow_range]

/-- C5 amended: every successful ANALYSE call returns the raw input
unchanged; the last-value op writes the batch range into its state by direct
assignment, while the moving-average op updates its statistics with its EMA
update (`assign_moving_average` with `zero_debias = false`), not a direct
assignment. -/
theorem c5_amended :
    (∀ (inputs : List ℚ) (st : MinMaxState) (bit_width round_mode : ℕ)
      (is_training symmetry per_channel : Bool) (out : List ℚ) (st2 : MinMaxState),
      LastValueMinMaxQuantize inputs st bit_width round_mode "ANALYSE" is_training
          symmetry per_channel = Except.ok (out, st2) →
      out = inputs ∧
        st2 = ⟨(get_min_max inputs bit_width symmetry per_channel).1,
               (get_min_max inputs bit_width symmetry per_channel).2⟩) ∧
    (∀ (inputs : List ℚ) (st : MovingAvgState) (bit_width round_mode : ℕ)
      (is_training per_channel : Bool) (ema_decay : ℚ) (out : List ℚ)
      (st2 : MovingAvgState),
      MovingAvgMinMaxQuantize inputs st bit_width round_mode "ANALYSE" is_training
          per_channel ema_decay = Except.ok (out, st2) →
      out = inputs ∧
        st2.min_var = (assign_moving_average_l st.min_var st.biased_min st.step_min
            (get_min_max inputs bit_width false per_channel).1 ema_decay false).1 ∧
        st2.max_var = (assign_moving_average_l st.max_var st.biased_max st.step_max
            (get_min_max inputs bit_width false per_channel).2 ema_decay false).1) := by
  constructor
  · intro inputs st bit_width round_mode is_training symmetry per_channel out st2 h
    rcases hk : get_quantize_kernel_key "MIN_MAX" round_mode symmetry per_channel
        with e | k
    · simp [LastValueMinMaxQuantize, Bind.bind, Except.bind, hk] at h
    · simp only [LastValueMinMaxQuantize, Bind.bind, Except.bind, hk] at h
      rw [if_pos trivial] at h
      simp only [pure, Except.pure, Except.ok.injEq, Prod.mk.injEq] at h
      obtain ⟨hout, hst⟩ := h
      exact ⟨hout.symm, hst.symm⟩
  · intro inputs st bit_width round_mode is_training per_channel ema_decay out st2 h
    rcases hk : get_quantize_kernel_key "MIN_MAX" round_mode false per_channel
        with e | k
    · simp [MovingAvgMinMaxQuantize, Bind.bind, Except.bind, hk] at h
    · simp only [MovingAvgMinMaxQuantize, Bind.bind, Except.bind, hk] at h
      rw [if_pos trivial] at h
      simp only [pure, Except.pure, Except.ok.injEq, Prod.mk.injEq] at h
      obtain ⟨hout, hst⟩ := h
      subst hst
      exact ⟨hout.symm, rfl, rfl⟩

/-- Witness instantiating both halves of `c5_amended` on concrete ANALYSE
runs. -/
theorem c5_amended_witness :
    (([0] : List ℚ) = [0] ∧
      (⟨[0], [0]⟩ : MinMaxState)
        = ⟨(get_min_max [0] 8 true false).1, (get_min_max [0] 8 true false).2⟩) ∧
    (([0] : List ℚ) = [0] ∧
      ([0] : List ℚ) = (assign_moving_average_l [0] [0] 0
          (get_min_max [0] 8 false false).1 (999/1000) false).1 ∧
      ([0] : List ℚ) = (assign_moving_average_l [0] [0] 0
          (get_min_max [0] 8 false false).2 (999/1000) false).1) :=
  ⟨c5_amended.1 [0] ⟨[1],[2]⟩ 8 0 false true false [0] ⟨[0],[0]⟩ lv_minmax_analyse_eval,
   c5_amended.2 [0] ⟨[0],[0],[0],[0],0,0⟩ 8 0 false false (999/1000) [0]
     ⟨[0],[0],[0],[0],0,0⟩ mavg_analyse_zero_eval⟩
